import Mathlib

/-!
Verification of the core of `rossler-attractor` (src/RosslerAttractor.jsx):
the Euler integrator `rosslerStep`, the trajectory generator (the `points`
useMemo), the per-frame reveal tick, the 500 ms debounce effect, the
restart/reset handlers and the parameter stepping helpers.

Numbers are modelled by `ℚ`; JavaScript numeric literals (`0.01`, `0.1`,
`5.7`) become the corresponding rationals, and `Number(v.toFixed(1))`
becomes rounding to the nearest multiple of `1/10`.  Wall-clock times for
the debounce timers are rationals measured in milliseconds.
-/

/-- A 3-coordinate state `{x, y, z}` of the dynamical system. -/
structure Vec3 where
  x : ℚ
  y : ℚ
  z : ℚ
deriving DecidableEq, Repr

/-- `rosslerStep(x, y, z, a, b, c, dt)` from src/RosslerAttractor.jsx
lines 12-17: one explicit Euler step of the Rössler equations. -/
def rosslerStep (x y z a b c dt : ℚ) : Vec3 :=
  let dx := (-y - z) * dt
  let dy := (x + a * y) * dt
  let dz := (b + z * (x - c)) * dt
  ⟨x + dx, y + dy, z + dz⟩

/-- `rosslerStep` as a function on states, for iteration. -/
def stepState (a b c dt : ℚ) (s : Vec3) : Vec3 :=
  rosslerStep s.x s.y s.z a b c dt

/-- The collection loop of the `points` useMemo (lines 39-42): `n` times,
advance the state one step and record the stepped state. -/
def collectPoints (a b c dt : ℚ) : Nat → Vec3 → List Vec3
  | 0, _ => []
  | n + 1, s =>
    let s1 := stepState a b c dt s
    s1 :: collectPoints a b c dt n s1

/-- The `points` useMemo (lines 24-45): from `(0.1, 0, 0)` with
`dt = 0.01`, skip 1000 transient steps, then collect 10000 points. -/
def generate (a b c : ℚ) : List Vec3 :=
  let numPoints : Nat := 10000
  let dt : ℚ := 1 / 100
  let s0 : Vec3 := ⟨1 / 10, 0, 0⟩
  let s1 := (stepState a b c dt)^[1000] s0
  collectPoints a b c dt numPoints s1

lemma collectPoints_eq_map (a b c dt : ℚ) (n : Nat) (s : Vec3) :
    collectPoints a b c dt n s =
      (List.range n).map (fun i => (stepState a b c dt)^[i + 1] s) := by
  induction n generalizing s with
  | zero => simp [collectPoints]
  | succ n ih =>
    rw [collectPoints, ih, List.range_succ_eq_map, List.map_cons, List.map_map]
    refine congrArg₂ _ (by simp) (List.map_congr_left fun i _ => ?_)
    simp [Function.comp, Function.iterate_succ_apply]

lemma collectPoints_length (a b c dt : ℚ) (n : Nat) (s : Vec3) :
    (collectPoints a b c dt n s).length = n := by
  rw [collectPoints_eq_map]; simp

/-- C1: the integrator step returns exactly
`(x + (-y - z)·dt, y + (x + a·y)·dt, z + (b + z·(x - c))·dt)`. -/
theorem rosslerStep_formula (x y z a b c dt : ℚ) :
    rosslerStep x y z a b c dt =
      ⟨x + (-y - z) * dt, y + (x + a * y) * dt, z + (b + z * (x - c)) * dt⟩ :=
  rfl

/-- C2: `generate a b c` has exactly 10000 points, and its `i`-th point
(0-based) is the state after `1001 + i` integrator steps from
`(0.1, 0, 0)` with `dt = 0.01` — the first 1000 outputs are discarded. -/
theorem generate_spec (a b c : ℚ) :
    (generate a b c).length = 10000 ∧
      generate a b c =
        (List.range 10000).map
          (fun i => (stepState a b c (1 / 100))^[1001 + i] ⟨1 / 10, 0, 0⟩) := by
  constructor
  · exact collectPoints_length a b c (1 / 100) 10000 _
  · rw [generate, collectPoints_eq_map]
    refine List.map_congr_left fun i _ => ?_
    rw [← Function.iterate_add_apply]
    ring_nf

/-- Equation parameters `{a, b, c}`. -/
structure Params where
  a : ℚ
  b : ℚ
  c : ℚ
deriving DecidableEq, Repr

/-- `DEFAULT_PARAMS = { a: 0.2, b: 0.2, c: 5.7 }` (line 6). -/
def defaultParams : Params := ⟨1 / 5, 1 / 5, 57 / 10⟩

/-- The per-frame reveal tick (useFrame, lines 50-52): if
`visiblePoints < points.length`, set it to `min (visiblePoints + 20)
points.length`; otherwise leave it unchanged. -/
def tickVisible (len vc : Nat) : Nat :=
  if vc < len then min (vc + 20) len else vc

/-- The state of the `RosslerAttractor` component (lines 108-112):
live parameters `a, b, c`, the debounced (committed) parameters, the
generated trajectory, and `visiblePoints`. -/
structure AppState where
  live : Params
  committed : Params
  traj : List Vec3
  visible : Nat
deriving DecidableEq

/-- One scheduler tick applied to the component state. -/
def tickOp (s : AppState) : AppState :=
  { s with visible := tickVisible s.traj.length s.visible }

/-- `handleRestart` (lines 124-126): `setVisiblePoints(0)`. -/
def handleRestart (s : AppState) : AppState :=
  { s with visible := 0 }

/-- `handleReset` (lines 128-132): set the live `a`, `b`, `c` back to
`DEFAULT_PARAMS` (the debounced parameters are not touched here). -/
def handleReset (s : AppState) : AppState :=
  { s with live := defaultParams }

/-- The body of the debounce timer (lines 116-119) together with the
`points` useMemo it retriggers: `setDebouncedParams({a, b, c})`,
regeneration of the trajectory, and `setVisiblePoints(0)`. -/
def commitOp (s : AppState) : AppState :=
  { s with
    committed := s.live
    traj := generate s.live.a s.live.b s.live.c
    visible := 0 }

/-- The reveal invariant: `visiblePoints` never exceeds the trajectory
length (it is a `Nat`, so `0 ≤ visiblePoints` holds by type). -/
def RevealInv (s : AppState) : Prop :=
  s.visible ≤ s.traj.length

instance (s : AppState) : Decidable (RevealInv s) :=
  inferInstanceAs (Decidable (_ ≤ _))

lemma tickVisible_iterate (len k : Nat) :
    (tickVisible len)^[k] 0 = min (20 * k) len := by
  induction k with
  | zero => simp
  | succ k ih =>
    rw [Function.iterate_succ_apply', ih, tickVisible]
    split_ifs <;> omega

/-- C3: a tick with `visibleCount < len` sets it to
`min (visibleCount + 20) len`; a tick at `len` leaves it unchanged; from
`0`, `visibleCount` is below `len` for the first `⌈len/20⌉ - 1` ticks and
equals `len` after exactly `⌈len/20⌉` ticks — 500 ticks for `len = 10000`. -/
theorem tickVisible_spec (len vc : Nat) :
    (vc < len → tickVisible len vc = min (vc + 20) len) ∧
      (vc = len → tickVisible len vc = vc) ∧
      (∀ k, k < (len + 19) / 20 → (tickVisible len)^[k] 0 < len) ∧
      (tickVisible len)^[(len + 19) / 20] 0 = len ∧
      (tickVisible 10000)^[500] 0 = 10000 := by
  refine ⟨fun h => by simp [tickVisible, h], fun h => by simp [tickVisible, h],
    fun k hk => ?_, ?_, ?_⟩
  · rw [tickVisible_iterate]; omega
  · rw [tickVisible_iterate]; omega
  · rw [tickVisible_iterate]; omega

/-- Witness for `tickVisible_spec` at `len = 10000`, `vc = 40`. -/
theorem tickVisible_spec_witness :
    (40 : Nat) < 10000 ∧ tickVisible 10000 40 = min (40 + 20) 10000 :=
  ⟨by decide, (tickVisible_spec 10000 40).1 (by decide)⟩

/-- C4: from any state satisfying the reveal invariant, each operation
(tick, restart, reset, commit) preserves `0 ≤ visibleCount ≤ len`, and a
tick never decreases `visibleCount`. -/
theorem revealInv_preserved (s : AppState) (h : RevealInv s) :
    RevealInv (tickOp s) ∧ RevealInv (handleRestart s) ∧
      RevealInv (handleReset s) ∧ RevealInv (commitOp s) ∧
      s.visible ≤ (tickOp s).visible := by
  have hvis : s.visible ≤ s.traj.length := h
  refine ⟨?_, ?_, ?_, ?_, ?_⟩
  · simp only [RevealInv, tickOp, tickVisible]
    split_ifs <;> omega
  · simp [RevealInv, handleRestart]
  · simpa [RevealInv, handleReset] using h
  · simp [RevealInv, commitOp]
  · simp only [tickOp, tickVisible]
    split_ifs <;> omega

/-- Witness for `revealInv_preserved` at a concrete state. -/
theorem revealInv_preserved_witness :
    RevealInv ⟨defaultParams, defaultParams, [⟨0, 0, 0⟩], 0⟩ ∧
      (RevealInv (tickOp ⟨defaultParams, defaultParams, [⟨0, 0, 0⟩], 0⟩) ∧
        RevealInv (handleRestart ⟨defaultParams, defaultParams, [⟨0, 0, 0⟩], 0⟩) ∧
        RevealInv (handleReset ⟨defaultParams, defaultParams, [⟨0, 0, 0⟩], 0⟩) ∧
        RevealInv (commitOp ⟨defaultParams, defaultParams, [⟨0, 0, 0⟩], 0⟩) ∧
        (⟨defaultParams, defaultParams, [⟨0, 0, 0⟩], 0⟩ : AppState).visible ≤
          (tickOp ⟨defaultParams, defaultParams, [⟨0, 0, 0⟩], 0⟩).visible) :=
  ⟨by decide, revealInv_preserved ⟨defaultParams, defaultParams, [⟨0, 0, 0⟩], 0⟩ (by decide)⟩

/-- C9: `handleRestart` zeroes `visiblePoints` and changes nothing else;
applying it twice equals applying it once. -/
theorem handleRestart_spec (s : AppState) :
    (handleRestart s).visible = 0 ∧ (handleRestart s).live = s.live ∧
      (handleRestart s).committed = s.committed ∧
      (handleRestart s).traj = s.traj ∧
      handleRestart (handleRestart s) = handleRestart s :=
  ⟨rfl, rfl, rfl, rfl, rfl⟩

/-- A parameter edit: a change of the live `a`, `b`, `c` at a wall-clock
time (milliseconds after mount).  Each edit re-runs the debounce
useEffect (lines 115-122). -/
structure EditEvent where
  time : ℚ
  params : Params
deriving DecidableEq, Repr

/-- The commits produced by the debounce useEffect (lines 115-122), given
that a 500 ms timer was (re)scheduled at time `sch` with live value `p`
and that `edits` are the later edits in time order.  The timer scheduled
at `sch` fires at `sch + 500` unless the next edit arrives strictly
within those 500 ms and clears it (`clearTimeout` in the effect cleanup);
each edit schedules its own 500 ms timer in turn. -/
def debounceCommits (sch : ℚ) (p : Params) : List EditEvent → List (ℚ × Params)
  | [] => [(sch + 500, p)]
  | e :: rest =>
    (if sch + 500 ≤ e.time then [(sch + 500, p)] else []) ++
      debounceCommits e.time e.params rest

/-- The full commit timeline from component mount: the effect also runs
on mount (time 0) with the default parameters. -/
def commitsFromMount (edits : List EditEvent) : List (ℚ × Params) :=
  debounceCommits 0 defaultParams edits

/-- The last edit of a nonempty edit list `e :: rest`. -/
def lastEdit : EditEvent → List EditEvent → EditEvent
  | e, [] => e
  | _, e1 :: rest => lastEdit e1 rest

lemma debounceCommits_burst (rest : List EditEvent) :
    ∀ (e : EditEvent) (sch : ℚ) (p : Params),
      List.Chain' (fun u v => v.time < u.time + 500) (e :: rest) →
      debounceCommits sch p (e :: rest) =
        (if sch + 500 ≤ e.time then [(sch + 500, p)] else []) ++
          [((lastEdit e rest).time + 500, (lastEdit e rest).params)] := by
  induction rest with
  | nil => intro e sch p _; rfl
  | cons e1 rest ih =>
    intro e sch p hchain
    rw [List.chain'_cons] at hchain
    have hlt : ¬ (e.time + 500 ≤ e1.time) := by linarith [hchain.1]
    rw [debounceCommits, ih e1 e.time e.params hchain.2, if_neg hlt]
    simp [lastEdit]

lemma debounceCommits_spaced (edits : List EditEvent) :
    ∀ (sch : ℚ) (p : Params),
      List.Chain (fun u v => u.time + 500 < v.time) ⟨sch, p⟩ edits →
      debounceCommits sch p edits =
        (sch + 500, p) :: edits.map (fun e => (e.time + 500, e.params)) := by
  induction edits with
  | nil => intro sch p _; rfl
  | cons e rest ih =>
    intro sch p hchain
    rw [List.chain_cons] at hchain
    rw [debounceCommits, if_pos (le_of_lt hchain.1), ih e.time e.params hchain.2]
    rfl

/-- C5: with edits `e :: rest` in time order, (burst) if each edit
arrives strictly within 500 ms of the previous one, the whole timeline
from mount holds exactly one edit-driven commit, firing 500 ms after the
last edit with the last live value (plus the mount commit iff the burst
starts at least 500 ms after mount); (spaced) if mount and all edits are
more than 500 ms apart, every timer fires: one commit per edit at its
time + 500 ms with its live value. -/
theorem debounce_commit_spec (e : EditEvent) (rest : List EditEvent) :
    (List.Chain' (fun u v => v.time < u.time + 500) (e :: rest) →
      commitsFromMount (e :: rest) =
        (if 500 ≤ e.time then [((500 : ℚ), defaultParams)] else []) ++
          [((lastEdit e rest).time + 500, (lastEdit e rest).params)]) ∧
      (List.Chain (fun u v => u.time + 500 < v.time) ⟨0, defaultParams⟩ (e :: rest) →
        commitsFromMount (e :: rest) =
          ((500 : ℚ), defaultParams) ::
            (e :: rest).map (fun ev => (ev.time + 500, ev.params))) := by
  constructor
  · intro hchain
    rw [commitsFromMount, debounceCommits_burst rest e 0 defaultParams hchain,
      zero_add]
  · intro hchain
    rw [commitsFromMount, debounceCommits_spaced (e :: rest) 0 defaultParams hchain,
      zero_add]

/-- Witness for `debounce_commit_spec`: a burst of two edits at 100 ms
and 300 ms coalesces into exactly one commit at 800 ms. -/
theorem debounce_commit_spec_witness :
    List.Chain' (fun u v => v.time < u.time + 500)
        [(⟨100, ⟨3 / 10, 1 / 5, 57 / 10⟩⟩ : EditEvent), ⟨300, ⟨2 / 5, 1 / 5, 57 / 10⟩⟩] ∧
      commitsFromMount
          [⟨100, ⟨3 / 10, 1 / 5, 57 / 10⟩⟩, ⟨300, ⟨2 / 5, 1 / 5, 57 / 10⟩⟩] =
        (if (500 : ℚ) ≤ (100 : ℚ) then [((500 : ℚ), defaultParams)] else []) ++
          [((lastEdit ⟨100, ⟨3 / 10, 1 / 5, 57 / 10⟩⟩
                [⟨300, ⟨2 / 5, 1 / 5, 57 / 10⟩⟩]).time + 500,
            (lastEdit ⟨100, ⟨3 / 10, 1 / 5, 57 / 10⟩⟩
                [⟨300, ⟨2 / 5, 1 / 5, 57 / 10⟩⟩]).params)] :=
  ⟨List.chain'_cons.mpr ⟨by norm_num, List.chain'_singleton _⟩,
    (debounce_commit_spec ⟨100, ⟨3 / 10, 1 / 5, 57 / 10⟩⟩
        [⟨300, ⟨2 / 5, 1 / 5, 57 / 10⟩⟩]).1
      (List.chain'_cons.mpr ⟨by norm_num, List.chain'_singleton _⟩)⟩

/-- C10: with no user edit at all, the mount-scheduled timer fires once:
the whole timeline is exactly one commit, 500 ms after mount, carrying
the unchanged default parameters; applying a commit sets
`visiblePoints = 0` and `committed` to the live value. -/
theorem mount_commit_spec :
    commitsFromMount [] = [((500 : ℚ), defaultParams)] ∧
      ∀ s : AppState, (commitOp s).visible = 0 ∧ (commitOp s).committed = s.live := by
  exact ⟨by simp [commitsFromMount, debounceCommits], fun s => ⟨rfl, rfl⟩⟩

/-- C6 counterexample: `handleReset` changes only the live parameters;
the committed (debounced) parameters are not restored to the defaults by
the reset itself, so the commit is not immediate. -/
theorem handleReset_committed_unchanged :
    (handleReset
        ⟨⟨3 / 10, 1 / 5, 57 / 10⟩, ⟨3 / 10, 1 / 5, 57 / 10⟩, [], 0⟩).committed ≠
      defaultParams := by
  intro hcontra
  have ha : (3 : ℚ) / 10 = 1 / 5 := congrArg Params.a hcontra
  norm_num at ha

/-- C6 amended: `handleReset` restores the live parameters to the
defaults immediately and leaves the committed parameters unchanged; the
defaults reach `committed` through the ordinary debounce path, so the
last commit after a reset at time `t` (with no later edit) fires at
`t + 500`, 500 ms later, carrying the defaults. -/
theorem handleReset_spec (s : AppState) (sch t : ℚ) (p : Params) :
    (handleReset s).live = defaultParams ∧
      (handleReset s).committed = s.committed ∧
      (debounceCommits sch p [⟨t, defaultParams⟩]).getLast? =
        some (t + 500, defaultParams) := by
  refine ⟨rfl, rfl, ?_⟩
  rw [debounceCommits, debounceCommits]
  split_ifs <;> rfl

/-- A trajectory point as seen by the render adapter; `none` models a
point with a non-finite (`NaN`/`Infinity`) coordinate, `some` a finite
point. -/
def isFinitePt (p : Option Vec3) : Bool :=
  p.isSome

/-- The render adapter's per-frame draw-range update (lines 55-57):
`geometry.setDrawRange(0, visiblePoints)` — the drawn polyline is the
first `visiblePoints` stored points, whatever their values. -/
def setDrawRange (pts : List (Option Vec3)) (vc : Nat) : List (Option Vec3) :=
  pts.take vc

/-- C7 counterexample: with a non-finite second point and
`visibleCount = 3`, the drawn range is not truncated at the first
non-finite point — the non-finite point itself is drawn. -/
theorem setDrawRange_draws_nonfinite :
    setDrawRange [some ⟨0, 0, 0⟩, none, some ⟨1, 1, 1⟩] 3 ≠ [some ⟨0, 0, 0⟩] ∧
      none ∈ setDrawRange [some ⟨0, 0, 0⟩, none, some ⟨1, 1, 1⟩] 3 ∧
      isFinitePt none = false := by
  decide

/-- C7 amended: the render adapter draws exactly the first
`visibleCount` stored points with no finiteness check: the drawn list
has length `min visibleCount len`, and every position `i < visibleCount`
is passed through unchanged — non-finite points included. -/
theorem setDrawRange_spec (pts : List (Option Vec3)) (vc : Nat) :
    (setDrawRange pts vc).length = min vc pts.length ∧
      ∀ i, i < vc → (setDrawRange pts vc)[i]? = pts[i]? := by
  refine ⟨by simp [setDrawRange], fun i hi => ?_⟩
  simp [setDrawRange, List.getElem?_take, hi]

/-- Witness for `setDrawRange_spec` at `pts = [none]`, `vc = 1`, `i = 0`. -/
theorem setDrawRange_spec_witness :
    (0 : Nat) < 1 ∧
      (setDrawRange [(none : Option Vec3)] 1)[0]? = [(none : Option Vec3)][0]? :=
  ⟨by decide, (setDrawRange_spec [(none : Option Vec3)] 1).2 0 (by decide)⟩

/-- `Number(q.toFixed(1))`: rounding to the nearest multiple of `1/10`. -/
def toFixed1 (q : ℚ) : ℚ :=
  (round (q * 10) : ℤ) / 10

/-- `incrementParam` (lines 134-136): `Number((value + 0.1).toFixed(1))`. -/
def incrementParam (v : ℚ) : ℚ :=
  toFixed1 (v + 1 / 10)

/-- `decrementParam` (lines 138-140): `Number((value - 0.1).toFixed(1))`. -/
def decrementParam (v : ℚ) : ℚ :=
  toFixed1 (v - 1 / 10)

lemma incrementParam_tenth (n : ℤ) :
    incrementParam ((n : ℚ) / 10) = ((n + 1 : ℤ) : ℚ) / 10 := by
  rw [incrementParam, toFixed1]
  have h1 : ((n : ℚ) / 10 + 1 / 10) * 10 = ((n + 1 : ℤ) : ℚ) := by
    push_cast; ring
  rw [h1, round_intCast]

lemma decrementParam_tenth (n : ℤ) :
    decrementParam ((n : ℚ) / 10) = ((n - 1 : ℤ) : ℚ) / 10 := by
  rw [decrementParam, toFixed1]
  have h1 : ((n : ℚ) / 10 - 1 / 10) * 10 = ((n - 1 : ℤ) : ℚ) := by
    push_cast; ring
  rw [h1, round_intCast]

lemma incrementParam_iterate (k : ℕ) :
    ∀ n : ℤ, incrementParam^[k] ((n : ℚ) / 10) = ((n + k : ℤ) : ℚ) / 10 := by
  induction k with
  | zero => intro n; simp
  | succ k ih =>
    intro n
    rw [Function.iterate_succ_apply, incrementParam_tenth, ih (n + 1)]
    congr 2
    push_cast
    ring

/-- C8: on any one-decimal value `n/10`, incrementing adds exactly `0.1`
and decrementing subtracts exactly `0.1` (the rounding absorbs any
drift); seven increments from `a = 0.2` give exactly `0.9`, within
1 part in `10^9` of `0.9`. -/
theorem paramStep_spec :
    (∀ n : ℤ, incrementParam ((n : ℚ) / 10) = (n : ℚ) / 10 + 1 / 10 ∧
        decrementParam ((n : ℚ) / 10) = (n : ℚ) / 10 - 1 / 10) ∧
      incrementParam^[7] ((1 : ℚ) / 5) = 9 / 10 ∧
      |incrementParam^[7] ((1 : ℚ) / 5) - 9 / 10| ≤ (9 / 10) / 10 ^ 9 := by
  have hit : incrementParam^[7] ((1 : ℚ) / 5) = 9 / 10 := by
    have e2 : (1 : ℚ) / 5 = ((2 : ℤ) : ℚ) / 10 := by norm_num
    rw [e2, incrementParam_iterate 7 2]
    norm_num
  refine ⟨fun n => ⟨?_, ?_⟩, hit, by rw [hit]; norm_num⟩
  · rw [incrementParam_tenth]
    push_cast; ring
  · rw [decrementParam_tenth]
    push_cast; ring
